import Mathlib

/-!
Verification of the RESP tokenizer in `src/parser.rs` (crate `redis_parser`).

The Rust lexer walks a borrowed `&str` with a `Peekable<CharIndices>`
iterator plus a separate `position : usize` field.  We embed it shallowly:
the buffer is a `List Char`, each character occupying one byte position
(RESP is an ASCII protocol; all inputs considered here are ASCII, so the
`CharIndices` byte offsets coincide with character indices).  The
`scanner` field below is the number of characters the iterator has
consumed (i.e. the index of the character `peek` would return) and
`position` mirrors the `position` field of the Rust struct.  The two can
desynchronise, exactly as in the source (`scan_string` and `scan_number`
advance the iterator without updating `position` in some paths), and the
model reproduces this faithfully.

Rust `Option`-returning helpers become functions `Lexer → Option α × Lexer`:
the returned state keeps all cursor mutations already performed even when
the value is `none` (the `?` operator does not rewind the cursor).
`Iterator::next` for the lexer can additionally hit the `todo!()` arm of
the sigil dispatch, which aborts the process; that outcome is modelled by
the dedicated constructor `PRes.crash`.  Recursion into aggregate
elements is fuelled; `PRes.fuelOut` is a model artefact that is never
produced when the fuel is at least the nesting depth (the canonical entry
point `Lexer.next` supplies `buffer length + 1`, which is ample, and no
theorem below depends on fuel exhaustion).
-/

namespace RedisParser

/-- The `Token` enum of `src/parser.rs` (borrowed `&str` payloads become
`List Char` slices of the input). -/
inductive Token where
  | SimpleString (text : List Char)
  | Error (text : List Char)
  | Integer (n : Int)
  | BulkString (text : Option (List Char))
  | Array (elems : Option (List Token))
  | Boolean (b : Bool)
  | Set (elems : Option (List Token))
  | Double (text : List Char)
  | BigNumber (text : List Char)
  | BigErr (text : List Char)
  | VerbatimString (formatter : List Char) (text : List Char)

/-- The `Error` enum of `src/parser.rs`.  The payloads (`ParseIntError`,
`ParseFloatError`) carry no information we need, so they are dropped. -/
inductive Error where
  | I64
  | F64
  | Boolean
deriving Repr, DecidableEq

/-- `type ParseResult<T> = Result<T, Error>` from the source. -/
abbrev ParseResult (α : Type) := Except Error α

/-- The `Lexer` struct: `inner` is the borrowed buffer, `scanner` the
number of characters consumed by the `Peekable<CharIndices>` iterator,
`position` the `position: usize` field. -/
structure Lexer where
  inner : List Char
  scanner : Nat
  position : Nat
deriving Repr, DecidableEq

/-- Rust `str::get(a..=b)` on an ASCII buffer: `Some` slice iff the
inclusive range is in bounds (`a ≤ b + 1` and `b + 1 ≤ len`). -/
def sliceIncl (l : List Char) (a b : Nat) : Option (List Char) :=
  if a ≤ b + 1 ∧ b + 1 ≤ l.length then Option.some ((l.drop a).take (b + 1 - a))
  else Option.none

/-- `Lexer::new` (src lines 51-57). -/
def Lexer.new (inner : List Char) : Lexer :=
  { inner := inner, scanner := 0, position := 0 }

/-- `Lexer::next_if` (src lines 69-77): conditionally consume the peeked
character and set `position` to its index plus one. -/
def Lexer.next_if (cond : Nat → Char → Bool) (s : Lexer) :
    Option (Nat × Char) × Lexer :=
  match s.inner[s.scanner]? with
  | Option.some c =>
    if cond s.scanner c then
      (Option.some (s.scanner, c),
       { s with scanner := s.scanner + 1, position := s.scanner + 1 })
    else (Option.none, s)
  | Option.none => (Option.none, s)

/-- `Lexer::skip_line` (src lines 59-67): guarded by
`inner.get(position..=position+1).is_some()` — i.e. it requires TWO bytes
at `position` — then consumes an optional `\r` and an optional `\n`
through `next_if` (which reads at the `scanner` index of the iterator). -/
def Lexer.skip_line (s : Lexer) : Option Unit × Lexer :=
  if (sliceIncl s.inner s.position (s.position + 1)).isSome then
    let s1 := (Lexer.next_if (fun _ c => c == '\r') s).snd
    let s2 := (Lexer.next_if (fun _ c => c == '\n') s1).snd
    (Option.some (), s2)
  else (Option.none, s)

/-- The raw `while let Some((position, _)) = self.scanner.next_if(cond)`
loop shared by `scan_string` and `scan_number`: it advances the iterator
only (never `position`) and tracks the index of the last consumed
character in `e`.  The fuel is the number of characters left, supplied by
the callers as `inner.length - scanner`, which always suffices. -/
def Lexer.scannerRun (cond : Nat → Char → Bool) :
    Nat → Lexer → Nat → Nat × Lexer
  | 0, s, e => (e, s)
  | Nat.succ fuel, s, e =>
    match s.inner[s.scanner]? with
    | Option.some c =>
      if cond s.scanner c then
        Lexer.scannerRun cond fuel { s with scanner := s.scanner + 1 } s.scanner
      else (e, s)
    | Option.none => (e, s)

/-- `Lexer::scan_string` (src lines 79-95).  Note the faithful quirk: when
the loop consumed at most one character, `start_position < end_position`
fails and the function returns the empty slice without updating
`position` (even though the iterator may have consumed one character). -/
def Lexer.scan_string (cond : Nat → Char → Bool) (s : Lexer) :
    Option (List Char) × Lexer :=
  let start_position := s.position
  let (end_position, s1) :=
    Lexer.scannerRun cond (s.inner.length - s.scanner) s s.position
  if start_position < end_position then
    let s2 := { s1 with position := end_position + 1 }
    match sliceIncl s2.inner start_position end_position with
    | Option.some text => (Option.some text, s2)
    | Option.none => (Option.none, s2)
  else (Option.some [], s1)

/-- `Lexer::scan_number` (src lines 103-110): consume a digit run on the
iterator; `position` is NOT updated; returns `(start, end)` offsets. -/
def Lexer.scan_number (s : Lexer) : (Nat × Nat) × Lexer :=
  let start_position := s.position
  let (end_position, s1) :=
    Lexer.scannerRun (fun _ c => c.isDigit) (s.inner.length - s.scanner) s s.position
  ((start_position, end_position), s1)

/-- `Lexer::get_symbol_position` (src lines 97-101): consume an optional
leading `+`/`-`, returning its index, else the current `position`. -/
def Lexer.get_symbol_position (s : Lexer) : Nat × Lexer :=
  match Lexer.next_if (fun _ c => c == '+' || c == '-') s with
  | (Option.some ic, s1) => (ic.fst, s1)
  | (Option.none, s1) => (s1.position, s1)

/-- Value of a digit string, most significant first (what
`i64::from_str` computes on the digit part). -/
def digitsToNat (ds : List Char) : Nat :=
  ds.foldl (fun a c => a * 10 + (c.toNat - 48)) 0

/-- `i64::from_str`: an optional sign, a nonempty digit run, nothing
else, and the value must fit in a signed 64-bit integer; everything else
(including overflow) is a `ParseIntError`, mapped to `Error::I64`. -/
def i64FromStr (text : List Char) : ParseResult Int :=
  let hasSign : Bool :=
    match text.head? with
    | Option.some c => c == '+' || c == '-'
    | Option.none => false
  let neg : Bool :=
    match text.head? with
    | Option.some c => c == '-'
    | Option.none => false
  let ds := if hasSign then text.tail else text
  if ds ≠ [] ∧ ds.all Char.isDigit then
    let mag : Int := (digitsToNat ds : Int)
    let v : Int := if neg then -mag else mag
    if -((2 : Int) ^ 63) ≤ v ∧ v < (2 : Int) ^ 63 then Except.ok v
    else Except.error Error.I64
  else Except.error Error.I64

/-- `Lexer::get_integer` (src lines 112-117): optional sign, digit run,
slice `symbol_position..=end_position`, parse as `i64`. -/
def Lexer.get_integer (s : Lexer) : Option (ParseResult Int) × Lexer :=
  let (symbol_position, s1) := Lexer.get_symbol_position s
  let (numspan, s2) := Lexer.scan_number s1
  match sliceIncl s2.inner symbol_position numspan.snd with
  | Option.some text => (Option.some (i64FromStr text), s2)
  | Option.none => (Option.none, s2)

/-- Rust `v as usize` for `v : i64` (wrap modulo 2 to the 64). -/
def i64AsUsize (v : Int) : Nat := (v % (2 : Int) ^ 64).toNat

/-- `Lexer::scan_simple_string` (src lines 147-152). -/
def Lexer.scan_simple_string (s : Lexer) : Option (ParseResult Token) × Lexer :=
  match Lexer.next_if (fun _ c => c == '+') s with
  | (Option.none, s') => (Option.none, s')
  | (Option.some _, s1) =>
    match Lexer.scan_string (fun _ c => c != '\r' && c != '\n') s1 with
    | (Option.none, s') => (Option.none, s')
    | (Option.some text, s2) =>
      match Lexer.skip_line s2 with
      | (Option.none, s') => (Option.none, s')
      | (Option.some _, s3) =>
        (Option.some (Except.ok (Token.SimpleString text)), s3)

/-- `Lexer::scan_error` (src lines 154-159). -/
def Lexer.scan_error (s : Lexer) : Option (ParseResult Token) × Lexer :=
  match Lexer.next_if (fun _ c => c == '-') s with
  | (Option.none, s') => (Option.none, s')
  | (Option.some _, s1) =>
    match Lexer.scan_string (fun _ c => c != '\r' && c != '\n') s1 with
    | (Option.none, s') => (Option.none, s')
    | (Option.some text, s2) =>
      match Lexer.skip_line s2 with
      | (Option.none, s') => (Option.none, s')
      | (Option.some _, s3) => (Option.some (Except.ok (Token.Error text)), s3)

/-- `Lexer::scan_integer` (src lines 161-166). -/
def Lexer.scan_integer (s : Lexer) : Option (ParseResult Token) × Lexer :=
  match Lexer.next_if (fun _ c => c == ':') s with
  | (Option.none, s') => (Option.none, s')
  | (Option.some _, s1) =>
    match Lexer.get_integer s1 with
    | (Option.none, s') => (Option.none, s')
    | (Option.some result, s2) =>
      match Lexer.skip_line s2 with
      | (Option.none, s') => (Option.none, s')
      | (Option.some _, s3) => (Option.some (result.map Token.Integer), s3)

/-- `Lexer::scan_bulk_string` (src lines 168-189). -/
def Lexer.scan_bulk_string (s : Lexer) : Option (ParseResult Token) × Lexer :=
  match Lexer.next_if (fun _ c => c == '$') s with
  | (Option.none, s') => (Option.none, s')
  | (Option.some _, s1) =>
    match Lexer.get_integer s1 with
    | (Option.none, s') => (Option.none, s')
    | (Option.some count_result, s2) =>
      match Lexer.skip_line s2 with
      | (Option.none, s') => (Option.none, s')
      | (Option.some _, s3) =>
        match count_result with
        | Except.ok count =>
          if 0 ≤ count then
            let cnt := count.toNat
            let end_position := s3.position + cnt
            match Lexer.scan_string
                (fun p c => decide (p < end_position) && c != '\r' && c != '\n') s3 with
            | (Option.none, s') => (Option.none, s')
            | (Option.some text, s4) =>
              match Lexer.skip_line s4 with
              | (Option.none, s') => (Option.none, s')
              | (Option.some _, s5) =>
                (Option.some (Except.ok (Token.BulkString (Option.some text))), s5)
          else (Option.some (Except.ok (Token.BulkString Option.none)), s3)
        | Except.error e => (Option.some (Except.error e), s3)

/-- `Lexer::scan_boolean` (src lines 205-216).  The `_` arm producing
`Err(Error::Boolean)` is kept, although the `?` on `next_if` makes it
unreachable, exactly as in the source. -/
def Lexer.scan_boolean (s : Lexer) : Option (ParseResult Token) × Lexer :=
  match Lexer.next_if (fun _ c => c == '#') s with
  | (Option.none, s') => (Option.none, s')
  | (Option.some _, s1) =>
    match Lexer.next_if (fun _ c => c == 't' || c == 'f') s1 with
    | (Option.none, s') => (Option.none, s')
    | (Option.some ic, s2) =>
      if ic.snd == 't' then
        match Lexer.skip_line s2 with
        | (Option.none, s') => (Option.none, s')
        | (Option.some _, s3) => (Option.some (Except.ok (Token.Boolean true)), s3)
      else if ic.snd == 'f' then
        match Lexer.skip_line s2 with
        | (Option.none, s') => (Option.none, s')
        | (Option.some _, s3) => (Option.some (Except.ok (Token.Boolean false)), s3)
      else (Option.some (Except.error Error.Boolean), s2)

/-- `Lexer::scan_double` (src lines 234-254). -/
def Lexer.scan_double (s : Lexer) : Option (ParseResult Token) × Lexer :=
  match Lexer.next_if (fun _ c => c == ',') s with
  | (Option.none, s') => (Option.none, s')
  | (Option.some _, s1) =>
    let (start_position, s2) := Lexer.get_symbol_position s1
    let (span1, s3) := Lexer.scan_number s2
    let e1 := span1.snd
    let (dotHit, s4) := Lexer.next_if (fun _ c => c == '.') s3
    let (e2, s5) :=
      match dotHit with
      | Option.some _ =>
        let (span2, s') := Lexer.scan_number s4
        (span2.snd, s')
      | Option.none => (e1, s4)
    let (expHit, s6) := Lexer.next_if (fun _ c => c == 'e' || c == 'E') s5
    let (e3, s7) :=
      match expHit with
      | Option.some _ =>
        let (_, s') := Lexer.get_symbol_position s6
        let (span3, s'') := Lexer.scan_number s'
        (span3.snd, s'')
      | Option.none => (e2, s6)
    match sliceIncl s7.inner start_position e3 with
    | Option.none => (Option.none, s7)
    | Option.some text =>
      match Lexer.skip_line s7 with
      | (Option.none, s') => (Option.none, s')
      | (Option.some _, s8) => (Option.some (Except.ok (Token.Double text)), s8)

/-- `Lexer::scan_big_number` (src lines 256-263). -/
def Lexer.scan_big_number (s : Lexer) : Option (ParseResult Token) × Lexer :=
  match Lexer.next_if (fun _ c => c == '(') s with
  | (Option.none, s') => (Option.none, s')
  | (Option.some _, s1) =>
    let (start_position, s2) := Lexer.get_symbol_position s1
    let (numspan, s3) := Lexer.scan_number s2
    match sliceIncl s3.inner start_position numspan.snd with
    | Option.none => (Option.none, s3)
    | Option.some text =>
      match Lexer.skip_line s3 with
      | (Option.none, s') => (Option.none, s')
      | (Option.some _, s4) => (Option.some (Except.ok (Token.BigNumber text)), s4)

/-- `Lexer::scan_big_error` (src lines 265-270). -/
def Lexer.scan_big_error (s : Lexer) : Option (ParseResult Token) × Lexer :=
  match Lexer.next_if (fun _ c => c == '!') s with
  | (Option.none, s') => (Option.none, s')
  | (Option.some _, s1) =>
    match Lexer.scan_string (fun _ c => c != '\r' && c != '\n') s1 with
    | (Option.none, s') => (Option.none, s')
    | (Option.some text, s2) =>
      match Lexer.skip_line s2 with
      | (Option.none, s') => (Option.none, s')
      | (Option.some _, s3) => (Option.some (Except.ok (Token.BigErr text)), s3)

/-- `Lexer::scan_verbatim_string` (src lines 272-287).  The `dbg!` call
has no effect on the result and is not modelled; the `next_if` for `:`
has its result discarded (no `?`), as in the source. -/
def Lexer.scan_verbatim_string (s : Lexer) : Option (ParseResult Token) × Lexer :=
  match Lexer.next_if (fun _ c => c == '=') s with
  | (Option.none, s') => (Option.none, s')
  | (Option.some _, s1) =>
    match Lexer.get_integer s1 with
    | (Option.none, s') => (Option.none, s')
    | (Option.some lenResult, s2) =>
      match Lexer.skip_line s2 with
      | (Option.none, s') => (Option.none, s')
      | (Option.some _, s3) =>
        match lenResult with
        | Except.error _ => (Option.none, s3)
        | Except.ok lenI =>
          let len := i64AsUsize lenI
          let start_position := s3.position
          match Lexer.scan_string (fun p _ => decide (p < start_position + 3)) s3 with
          | (Option.none, s') => (Option.none, s')
          | (Option.some formatter, s4) =>
            let s5 := (Lexer.next_if (fun _ c => c == ':') s4).snd
            match Lexer.scan_string (fun p _ => decide (p < len + start_position)) s5 with
            | (Option.none, s') => (Option.none, s')
            | (Option.some text, s6) =>
              match Lexer.skip_line s6 with
              | (Option.none, s') => (Option.none, s')
              | (Option.some _, s7) =>
                (Option.some (Except.ok (Token.VerbatimString formatter text)), s7)

/-- Outcome of one `Iterator::next` pull on the lexer.  `done` is the
Rust `None` (end of iteration), `item r` is `Some(r)`, `crash` is the
`todo!()` panic in the sigil dispatch, and `fuelOut` is the fuel-model
artefact (never produced with adequate fuel). -/
inductive PRes (α : Type) where
  | fuelOut
  | crash
  | done
  | item (a : α)

/-- Lift an `Option`-returning scan result into the pull-outcome type. -/
def liftNext (r : Option (ParseResult Token) × Lexer) :
    PRes (ParseResult Token) × Lexer :=
  match r with
  | (Option.some v, s) => (PRes.item v, s)
  | (Option.none, s) => (PRes.done, s)

/-- Type of the recursive element puller threaded into the aggregate
decoders (`self.next()` in the source). -/
abbrev NextFn := Lexer → PRes (ParseResult Token) × Lexer

/-- The `for _ in 0..tmp_count` loop of `Lexer::get_collections`
(src lines 131-137): pull `count` tokens through `nextFn`, accumulating
them (the `call_back` pushes); `None`, errors and the panic propagate. -/
def collectLoop (nextFn : NextFn) :
    Nat → Lexer → List Token → PRes (ParseResult Unit) × List Token × Lexer
  | 0, s, acc => (PRes.item (Except.ok ()), acc, s)
  | Nat.succ k, s, acc =>
    match nextFn s with
    | (PRes.item (Except.ok token), s1) => collectLoop nextFn k s1 (acc ++ [token])
    | (PRes.item (Except.error e), s1) => (PRes.item (Except.error e), acc, s1)
    | (PRes.done, s1) => (PRes.done, acc, s1)
    | (PRes.crash, s1) => (PRes.crash, acc, s1)
    | (PRes.fuelOut, s1) => (PRes.fuelOut, acc, s1)

/-- `Lexer::get_collections` (src lines 119-145): on `Ok(count)` with
`count >= 0` pull exactly `count` element tokens; on a negative count
call `skip_line` once more (the `?` turning its failure into `None`);
errors are passed straight through. -/
def Lexer.get_collections (nextFn : NextFn) (count_result : ParseResult Int)
    (s : Lexer) : PRes (ParseResult Int) × List Token × Lexer :=
  match count_result with
  | Except.error e => (PRes.item (Except.error e), [], s)
  | Except.ok count =>
    if 0 ≤ count then
      match collectLoop nextFn count.toNat s [] with
      | (PRes.item (Except.ok _), list, s1) => (PRes.item (Except.ok count), list, s1)
      | (PRes.item (Except.error e), list, s1) => (PRes.item (Except.error e), list, s1)
      | (PRes.done, list, s1) => (PRes.done, list, s1)
      | (PRes.crash, list, s1) => (PRes.crash, list, s1)
      | (PRes.fuelOut, list, s1) => (PRes.fuelOut, list, s1)
    else
      match Lexer.skip_line s with
      | (Option.some _, s1) => (PRes.item (Except.ok count), [], s1)
      | (Option.none, s1) => (PRes.done, [], s1)

/-- `Lexer::scan_array` (src lines 191-203). -/
def Lexer.scan_array (nextFn : NextFn) (s : Lexer) :
    PRes (ParseResult Token) × Lexer :=
  match Lexer.next_if (fun _ c => c == '*') s with
  | (Option.none, s') => (PRes.done, s')
  | (Option.some _, s1) =>
    match Lexer.get_integer s1 with
    | (Option.none, s') => (PRes.done, s')
    | (Option.some count_result, s2) =>
      match Lexer.skip_line s2 with
      | (Option.none, s') => (PRes.done, s')
      | (Option.some _, s3) =>
        match Lexer.get_collections nextFn count_result s3 with
        | (PRes.item (Except.ok count), list, s4) =>
          if 0 ≤ count then
            (PRes.item (Except.ok (Token.Array (Option.some list))), s4)
          else (PRes.item (Except.ok (Token.Array Option.none)), s4)
        | (PRes.item (Except.error e), _, s4) => (PRes.item (Except.error e), s4)
        | (PRes.done, _, s4) => (PRes.done, s4)
        | (PRes.crash, _, s4) => (PRes.crash, s4)
        | (PRes.fuelOut, _, s4) => (PRes.fuelOut, s4)

/-- `Lexer::scan_set` (src lines 218-232).  Faithful to the source: its
first step demands a `#` character (`next_if(|(_, c)| *c == '#')`), even
though the dispatch routes `~` here. -/
def Lexer.scan_set (nextFn : NextFn) (s : Lexer) :
    PRes (ParseResult Token) × Lexer :=
  match Lexer.next_if (fun _ c => c == '#') s with
  | (Option.none, s') => (PRes.done, s')
  | (Option.some _, s1) =>
    match Lexer.get_integer s1 with
    | (Option.none, s') => (PRes.done, s')
    | (Option.some count_result, s2) =>
      match Lexer.skip_line s2 with
      | (Option.none, s') => (PRes.done, s')
      | (Option.some _, s3) =>
        match Lexer.get_collections nextFn count_result s3 with
        | (PRes.item (Except.ok count), set, s4) =>
          if 0 ≤ count then
            (PRes.item (Except.ok (Token.Set (Option.some set))), s4)
          else (PRes.item (Except.ok (Token.Set Option.none)), s4)
        | (PRes.item (Except.error e), _, s4) => (PRes.item (Except.error e), s4)
        | (PRes.done, _, s4) => (PRes.done, s4)
        | (PRes.crash, _, s4) => (PRes.crash, s4)
        | (PRes.fuelOut, _, s4) => (PRes.fuelOut, s4)

/-- `<Lexer as Iterator>::next` (src lines 290-327): peek the sigil and
dispatch; an unmatched sigil reaches `todo!()`, i.e. a panic (`crash`).
The fuel bounds the aggregate nesting depth. -/
def Lexer.nextTok : Nat → Lexer → PRes (ParseResult Token) × Lexer
  | 0, s => (PRes.fuelOut, s)
  | Nat.succ fuel, s =>
    match s.inner[s.scanner]? with
    | Option.none => (PRes.done, s)
    | Option.some c =>
      if c == '+' then liftNext (Lexer.scan_simple_string s)
      else if c == '-' then liftNext (Lexer.scan_error s)
      else if c == ':' then liftNext (Lexer.scan_integer s)
      else if c == '$' then liftNext (Lexer.scan_bulk_string s)
      else if c == '*' then Lexer.scan_array (fun s' => Lexer.nextTok fuel s') s
      else if c == '~' then Lexer.scan_set (fun s' => Lexer.nextTok fuel s') s
      else if c == ',' then liftNext (Lexer.scan_double s)
      else if c == '#' then liftNext (Lexer.scan_boolean s)
      else if c == '(' then liftNext (Lexer.scan_big_number s)
      else if c == '!' then liftNext (Lexer.scan_big_error s)
      else if c == '=' then liftNext (Lexer.scan_verbatim_string s)
      else (PRes.crash, s)

/-- One pull on the lexer, with canonical fuel `buffer length + 1`
(strictly more than any possible aggregate nesting depth, since every
nesting level consumes at least its sigil character). -/
def Lexer.next (s : Lexer) : PRes (ParseResult Token) × Lexer :=
  Lexer.nextTok (s.inner.length + 1) s

/-- Pull up to `k` results, stopping after the first outcome that is not
an `item` (end of iteration, crash, or fuel artefact), which is recorded
as the final element. -/
def drainN : Nat → Lexer → List (PRes (ParseResult Token))
  | 0, _ => []
  | Nat.succ k, s =>
    match Lexer.next s with
    | (PRes.item r, s') => PRes.item r :: drainN k s'
    | (r, _) => [r]

/-- The public `Parser` struct (src lines 330-343). -/
structure Parser where
  buf : List Char

/-- `Parser::new`. -/
def Parser.new (buf : List Char) : Parser := { buf := buf }

/-- `Parser::parse` (src lines 340-342): builds a lexer, binds it to a
local, and returns unit without pulling anything. -/
def Parser.parse (p : Parser) : Unit :=
  let _lexer := Lexer.new p.buf
  ()

/-! ### Helper lemmas -/

/-- Characterisation of the raw scanner loop: starting at index `i`, if
the buffer continues with `run ++ rest`, every character of `run`
satisfies the predicate at its index, and the head of `rest` (when
present) does not, then the loop consumes exactly `run`, leaving the
last-consumed index in the accumulator (or the initial `e0` when `run`
is empty) and never touching `position`. -/
lemma scannerRun_spec (cond : Nat → Char → Bool) :
    ∀ (run rest : List Char) (fuel : Nat) (buf : List Char) (i p e0 : Nat),
      buf.drop i = run ++ rest →
      (∀ k (h : k < run.length), cond (i + k) run[k] = true) →
      (∀ c, rest.head? = Option.some c → cond (i + run.length) c = false) →
      run.length + rest.length ≤ fuel →
      Lexer.scannerRun cond fuel ⟨buf, i, p⟩ e0 =
        ((if run.length = 0 then e0 else i + run.length - 1),
         ⟨buf, i + run.length, p⟩) := by
  intro run
  induction run with
  | nil =>
    intro rest fuel buf i p e0 hdrop hrun hstop hfuel
    cases rest with
    | nil =>
      have hlen : buf.length ≤ i := by
        have h1 := congrArg List.length hdrop
        simp only [List.length_drop, List.nil_append, List.length_nil] at h1
        omega
      have hget : buf[i]? = Option.none := List.getElem?_eq_none hlen
      cases fuel with
      | zero => simp [Lexer.scannerRun]
      | succ m => simp [Lexer.scannerRun, hget]
    | cons c cs =>
      have hget : buf[i]? = Option.some c := by
        have h0 : (buf.drop i)[0]? = Option.some c := by
          rw [hdrop]; simp
        rw [List.getElem?_drop] at h0
        simpa using h0
      have hc : cond i c = false := by
        have h1 := hstop c rfl
        simpa using h1
      cases fuel with
      | zero => simp at hfuel
      | succ m => simp [Lexer.scannerRun, hget, hc]
  | cons c run' ih =>
    intro rest fuel buf i p e0 hdrop hrun hstop hfuel
    cases fuel with
    | zero => simp at hfuel
    | succ m =>
      have hget : buf[i]? = Option.some c := by
        have h0 : (buf.drop i)[0]? = Option.some c := by
          rw [hdrop]; simp
        rw [List.getElem?_drop] at h0
        simpa using h0
      have hc : cond i c = true := by
        have h1 := hrun 0 (by simp)
        simpa using h1
      have hdrop' : buf.drop (i + 1) = run' ++ rest := by
        have h1 : buf.drop (i + 1) = (buf.drop i).drop 1 := by
          rw [List.drop_drop]
        rw [h1, hdrop]
        rfl
      have hrun' : ∀ k (h : k < run'.length), cond (i + 1 + k) run'[k] = true := by
        intro k hk
        have h1 := hrun (k + 1) (by simpa using Nat.succ_lt_succ hk)
        have h2 : i + (k + 1) = i + 1 + k := by omega
        simpa [h2] using h1
      have hstop' : ∀ d, rest.head? = Option.some d →
          cond (i + 1 + run'.length) d = false := by
        intro d hd
        have h1 := hstop d hd
        have h2 : i + (run'.length + 1) = i + 1 + run'.length := by omega
        simpa [List.length_cons, h2] using h1
      have hfuel' : run'.length + rest.length ≤ m := by
        simp only [List.length_cons] at hfuel
        omega
      have key := ih rest m buf (i + 1) p i hdrop' hrun' hstop' hfuel'
      have hstep : Lexer.scannerRun cond (Nat.succ m) ⟨buf, i, p⟩ e0 =
          Lexer.scannerRun cond m ⟨buf, i + 1, p⟩ i := by
        simp [Lexer.scannerRun, hget, hc]
      rw [hstep, key]
      by_cases h0 : run'.length = 0
      · have h4 : run' = [] := List.length_eq_zero.mp h0
        subst h4
        simp
      · have h5 : (c :: run').length = run'.length + 1 := by simp
        rw [h5]
        have h6 : ¬(run'.length + 1 = 0) := by omega
        rw [if_neg h0, if_neg h6]
        have h7 : i + 1 + run'.length - 1 = i + (run'.length + 1) - 1 := by omega
        have h8 : i + 1 + run'.length = i + (run'.length + 1) := by omega
        rw [h7, h8]

/-- An ASCII digit is not `+`. -/
lemma digit_not_plus (c : Char) (h : c.isDigit = true) : (c == '+') = false := by
  by_cases h1 : c = '+'
  · subst h1; exact absurd h (by decide)
  · simp [h1]

/-- An ASCII digit is not `-`. -/
lemma digit_not_minus (c : Char) (h : c.isDigit = true) : (c == '-') = false := by
  by_cases h2 : c = '-'
  · subst h2; exact absurd h (by decide)
  · simp [h2]

/-- An ASCII digit is neither `+` nor `-`. -/
lemma digit_not_sign (c : Char) (h : c.isDigit = true) :
    (c == '+' || c == '-') = false := by
  rw [digit_not_plus c h, digit_not_minus c h]
  rfl

/-- On a nonempty run of digits whose value fits in an `i64`,
`i64::from_str` succeeds with that value. -/
lemma i64FromStr_digits (ds : List Char) (hne : ds ≠ [])
    (hdig : ds.all Char.isDigit = true) (hbound : digitsToNat ds < 2 ^ 63) :
    i64FromStr ds = Except.ok ((digitsToNat ds : Int)) := by
  cases ds with
  | nil => exact absurd rfl hne
  | cons c cs =>
    have hcdig : c.isDigit = true := by
      have h1 := List.all_eq_true.mp hdig c (by simp)
      simpa using h1
    have hplus := digit_not_plus c hcdig
    have hminus := digit_not_minus c hcdig
    have hpos : (0 : Int) ≤ (digitsToNat (c :: cs) : Int) := Int.natCast_nonneg _
    have hpow : (0 : Int) < (2 : Int) ^ 63 := by positivity
    have hb1 : -((2 : Int) ^ 63) ≤ (digitsToNat (c :: cs) : Int) := by linarith
    have hb2 : (digitsToNat (c :: cs) : Int) < (2 : Int) ^ 63 := by
      exact_mod_cast hbound
    simp only [i64FromStr, List.head?_cons, hplus, hminus, Bool.or_self, Bool.or_false,
      Bool.false_eq_true, if_false, ite_false]
    rw [if_pos ⟨List.cons_ne_nil c cs, hdig⟩, if_pos ⟨hb1, hb2⟩]

/-- Reading one element through a known `drop` decomposition. -/
lemma getElem?_of_drop {α : Type} (l : List α) (i j : Nat) (suf : List α)
    (h : l.drop i = suf) : l[i + j]? = suf[j]? := by
  rw [← List.getElem?_drop, h]

/-- `get_integer` on a synchronised cursor sitting on a nonempty digit
run: no sign is consumed, the digit loop eats exactly the run, the slice
is the run itself, and `position` is left behind at `k` (the source
never updates it in `scan_number`). -/
lemma get_integer_digit_run (buf : List Char) (k : Nat) (ds suf : List Char)
    (hdrop : buf.drop k = ds ++ suf)
    (hne : ds ≠ []) (hdig : ds.all Char.isDigit = true)
    (hstop : ∀ c, suf.head? = Option.some c → c.isDigit = false) :
    Lexer.get_integer ⟨buf, k, k⟩ =
      (Option.some (i64FromStr ds), ⟨buf, k + ds.length, k⟩) := by
  obtain ⟨c, cs, rfl⟩ : ∃ c cs, ds = c :: cs := by
    cases ds with
    | nil => exact absurd rfl hne
    | cons c cs => exact ⟨c, cs, rfl⟩
  have hlen : buf.length = k + (c :: cs).length + suf.length := by
    have h1 := congrArg List.length hdrop
    simp only [List.length_drop, List.length_append] at h1
    have h2 : 0 < (c :: cs).length := by simp
    omega
  have hget : buf[k]? = Option.some c := by
    have h0 := getElem?_of_drop buf k 0 ((c :: cs) ++ suf) hdrop
    simpa using h0
  have hcdig : c.isDigit = true := by
    have h1 := List.all_eq_true.mp hdig c (by simp)
    simpa using h1
  have hsign := digit_not_sign c hcdig
  have hsym : Lexer.get_symbol_position ⟨buf, k, k⟩ = (k, ⟨buf, k, k⟩) := by
    simp [Lexer.get_symbol_position, Lexer.next_if, hget, hsign]
  have hrun : ∀ j (h : j < (c :: cs).length),
      (fun _ ch => ch.isDigit) (k + j) (c :: cs)[j] = true := by
    intro j hj
    exact List.all_eq_true.mp hdig _ (List.getElem_mem hj)
  have hstop' : ∀ d, suf.head? = Option.some d →
      (fun _ ch => ch.isDigit) (k + (c :: cs).length) d = false := by
    intro d hd
    exact hstop d hd
  have hfuel : (c :: cs).length + suf.length ≤ buf.length - k := by omega
  have hloop := scannerRun_spec (fun _ ch => ch.isDigit) (c :: cs) suf
    (buf.length - k) buf k k k hdrop hrun hstop' hfuel
  have hnum : Lexer.scan_number ⟨buf, k, k⟩ =
      ((k, k + (c :: cs).length - 1), ⟨buf, k + (c :: cs).length, k⟩) := by
    simp only [Lexer.scan_number, hloop]
    simp
  have hslice : sliceIncl buf k (k + (c :: cs).length - 1) =
      Option.some (c :: cs) := by
    have hc1 : k ≤ k + (c :: cs).length - 1 + 1 := by
      simp only [List.length_cons]; omega
    have hc2 : k + (c :: cs).length - 1 + 1 ≤ buf.length := by
      simp only [List.length_cons] at hlen ⊢; omega
    have hcut : k + (c :: cs).length - 1 + 1 - k = (c :: cs).length := by
      simp only [List.length_cons]; omega
    unfold sliceIncl
    rw [if_pos ⟨hc1, hc2⟩, hcut, hdrop]
    rw [List.take_left]
  simp only [Lexer.get_integer, hsym, hnum, hslice]

/-- `skip_line` on a cursor whose iterator sits on a CRLF pair (the
guard reads at `position`, the consumption at `scanner`): both
characters are consumed and the two cursors re-synchronise at `i + 2`. -/
lemma skip_line_crlf (buf : List Char) (i p : Nat)
    (hguard : p + 2 ≤ buf.length)
    (hr : buf[i]? = Option.some '\r') (hn : buf[i + 1]? = Option.some '\n') :
    Lexer.skip_line ⟨buf, i, p⟩ = (Option.some (), ⟨buf, i + 2, i + 2⟩) := by
  have hg : (sliceIncl buf p (p + 1)).isSome = true := by
    have hc : p ≤ p + 1 + 1 ∧ p + 1 + 1 ≤ buf.length := by omega
    simp [sliceIncl, if_pos hc]
  have h1 : Lexer.next_if (fun _ c => c == '\r') ⟨buf, i, p⟩ =
      (Option.some (i, '\r'), ⟨buf, i + 1, i + 1⟩) := by
    simp [Lexer.next_if, hr]
  have h2 : Lexer.next_if (fun _ c => c == '\n') ⟨buf, i + 1, i + 1⟩ =
      (Option.some (i + 1, '\n'), ⟨buf, i + 2, i + 2⟩) := by
    simp [Lexer.next_if, hn]
  simp only [Lexer.skip_line, hg, if_true, h1, h2]

/-- Sigil dispatch: a `+` at the scanner index routes to
`scan_simple_string`. -/
lemma next_dispatch_plus (s : Lexer) (h : s.inner[s.scanner]? = Option.some '+') :
    Lexer.next s = liftNext (Lexer.scan_simple_string s) := by
  unfold Lexer.next Lexer.nextTok
  rw [h]
  rfl

/-- Sigil dispatch: a `$` at the scanner index routes to
`scan_bulk_string`. -/
lemma next_dispatch_dollar (s : Lexer) (h : s.inner[s.scanner]? = Option.some '$') :
    Lexer.next s = liftNext (Lexer.scan_bulk_string s) := by
  unfold Lexer.next Lexer.nextTok
  rw [h]
  rfl

/-- Sigil dispatch: a `#` at the scanner index routes to `scan_boolean`
(not to `scan_set`). -/
lemma next_dispatch_hash (s : Lexer) (h : s.inner[s.scanner]? = Option.some '#') :
    Lexer.next s = liftNext (Lexer.scan_boolean s) := by
  unfold Lexer.next Lexer.nextTok
  rw [h]
  rfl

/-- Sigil dispatch: a `*` at the scanner index routes to `scan_array`,
with the recursive element puller at one unit less fuel. -/
lemma next_dispatch_star (s : Lexer) (h : s.inner[s.scanner]? = Option.some '*') :
    Lexer.next s =
      Lexer.scan_array (fun s' => Lexer.nextTok s.inner.length s') s := by
  show Lexer.nextTok (s.inner.length + 1) s = _
  simp only [Lexer.nextTok]
  rw [h]
  rfl

/-- A scan returning `None` lifts to the `done` pull outcome. -/
lemma liftNext_fst_done (r : Option (ParseResult Token) × Lexer)
    (h : r.fst = Option.none) : (liftNext r).fst = PRes.done := by
  obtain ⟨v, s⟩ := r
  simp only at h
  subst h
  rfl

/-- `skip_line` succeeds (value `Some(())`) whenever at least two bytes
remain at `position`, whatever those bytes are — the `\r` and `\n`
consumptions are both optional. -/
lemma skip_line_succeeds (s : Lexer) (h : s.position + 2 ≤ s.inner.length) :
    (Lexer.skip_line s).fst = Option.some () := by
  have htrue : (sliceIncl s.inner s.position (s.position + 1)).isSome = true := by
    unfold sliceIncl
    rw [if_pos ⟨by omega, by omega⟩]
    rfl
  unfold Lexer.skip_line
  rw [htrue]
  rfl

/-- `skip_line` fails (and leaves the state untouched) whenever fewer
than two bytes remain at `position`. -/
lemma skip_line_fail (buf : List Char) (i p : Nat) (h : buf.length < p + 2) :
    Lexer.skip_line ⟨buf, i, p⟩ = (Option.none, ⟨buf, i, p⟩) := by
  have hg : ¬(p ≤ p + 1 + 1 ∧ p + 1 + 1 ≤ buf.length) := by omega
  have hfalse : (sliceIncl buf p (p + 1)).isSome = false := by
    unfold sliceIncl
    rw [if_neg hg]
    rfl
  unfold Lexer.skip_line
  rw [hfalse]
  rfl

/-- `scan_bulk_string` on a well-formed frame `$<digits>\r\n<payload>\r\n…`
whose declared length equals the payload length: the token is produced,
the whole frame (terminator included) is consumed, and — faithfully to
the single-character-capture quirk of `scan_string` — the decoded text
is the payload except when the payload has length exactly one, in which
case it is empty. -/
lemma scan_bulk_string_wellformed (ds payload rest buf : List Char)
    (hbuf : buf = '$' :: ds ++ '\r' :: '\n' :: (payload ++ '\r' :: '\n' :: rest))
    (hne : ds ≠ []) (hdig : ds.all Char.isDigit = true)
    (hbound : digitsToNat ds < 2 ^ 63)
    (hlen : digitsToNat ds = payload.length)
    (hpay : payload.all (fun c => c != '\r' && c != '\n') = true) :
    Lexer.scan_bulk_string (Lexer.new buf) =
      (Option.some (Except.ok (Token.BulkString (Option.some
        (if payload.length = 1 then [] else payload)))),
       ⟨buf, ds.length + payload.length + 5, ds.length + payload.length + 5⟩) := by
  have hget0 : buf[0]? = Option.some '$' := by rw [hbuf]; simp
  have hn1 : Lexer.next_if (fun _ c => c == '$') (Lexer.new buf) =
      (Option.some (0, '$'), ⟨buf, 1, 1⟩) := by
    simp [Lexer.next_if, Lexer.new, hget0]
  have hdrop1 : buf.drop 1 =
      ds ++ ('\r' :: '\n' :: (payload ++ '\r' :: '\n' :: rest)) := by
    rw [hbuf]; simp
  have hstop1 : ∀ c,
      ('\r' :: '\n' :: (payload ++ '\r' :: '\n' :: rest)).head? = Option.some c →
      c.isDigit = false := by
    intro c hc
    simp only [List.head?_cons, Option.some.injEq] at hc
    subst hc
    decide
  have hgeti := get_integer_digit_run buf 1 ds
    ('\r' :: '\n' :: (payload ++ '\r' :: '\n' :: rest)) hdrop1 hne hdig hstop1
  have hint : i64FromStr ds = Except.ok ((payload.length : Int)) := by
    rw [i64FromStr_digits ds hne hdig hbound, hlen]
  rw [hint] at hgeti
  have hbuflen : buf.length = ds.length + payload.length + 5 + rest.length := by
    rw [hbuf]
    simp [List.length_append]
    omega
  have hr1 : buf[1 + ds.length]? = Option.some '\r' := by
    have h0 := getElem?_of_drop buf 1 ds.length _ hdrop1
    rw [h0, List.getElem?_append_right (le_refl ds.length)]
    simp
  have hn2 : buf[1 + ds.length + 1]? = Option.some '\n' := by
    have harith : 1 + ds.length + 1 = 1 + (ds.length + 1) := by omega
    have h0 := getElem?_of_drop buf 1 (ds.length + 1) _ hdrop1
    rw [harith, h0,
      List.getElem?_append_right (by omega : ds.length ≤ ds.length + 1)]
    have harith2 : ds.length + 1 - ds.length = 1 := by omega
    rw [harith2]
    simp
  have hskip1 := skip_line_crlf buf (1 + ds.length) 1 (by omega) hr1 hn2
  have hpre : buf = ('$' :: ds ++ ['\r', '\n']) ++ (payload ++ '\r' :: '\n' :: rest) := by
    rw [hbuf]; simp
  have hprelen : ('$' :: ds ++ ['\r', '\n'] : List Char).length = 1 + ds.length + 2 := by
    simp [List.length_append]
    omega
  have hdrop2 : buf.drop (1 + ds.length + 2) = payload ++ '\r' :: '\n' :: rest := by
    rw [hpre, ← hprelen, List.drop_left]
  have hrun2 : ∀ k (hk : k < payload.length),
      (fun p c => decide (p < 1 + ds.length + 2 + payload.length) &&
        c != '\r' && c != '\n') (1 + ds.length + 2 + k) payload[k] = true := by
    intro k hk
    have hch := List.all_eq_true.mp hpay _ (List.getElem_mem hk)
    simp only [Bool.and_eq_true] at hch
    obtain ⟨ha, hb⟩ := hch
    have hlt : 1 + ds.length + 2 + k < 1 + ds.length + 2 + payload.length := by omega
    simp [hlt, ha, hb]
  have hstop2 : ∀ c, ('\r' :: '\n' :: rest).head? = Option.some c →
      (fun p c => decide (p < 1 + ds.length + 2 + payload.length) &&
        c != '\r' && c != '\n') (1 + ds.length + 2 + payload.length) c = false := by
    intro c hc
    simp
  have hfuel2 : payload.length + ('\r' :: '\n' :: rest).length ≤
      buf.length - (1 + ds.length + 2) := by
    simp only [List.length_cons]
    omega
  have hloop2 := scannerRun_spec
    (fun p c => decide (p < 1 + ds.length + 2 + payload.length) &&
      c != '\r' && c != '\n')
    payload ('\r' :: '\n' :: rest) (buf.length - (1 + ds.length + 2)) buf
    (1 + ds.length + 2) (1 + ds.length + 2) (1 + ds.length + 2)
    hdrop2 hrun2 hstop2 hfuel2
  rcases payload with _ | ⟨c0, _ | ⟨c1, tl⟩⟩
  · -- payload = []
    have hrA : buf[1 + ds.length + 2]? = Option.some '\r' := by
      have h0 := getElem?_of_drop buf (1 + ds.length + 2) 0 _ hdrop2
      simpa using h0
    have hnA : buf[1 + ds.length + 2 + 1]? = Option.some '\n' := by
      have h0 := getElem?_of_drop buf (1 + ds.length + 2) 1 _ hdrop2
      simpa using h0
    have hskipA := skip_line_crlf buf (1 + ds.length + 2) (1 + ds.length + 2)
      (by omega) hrA hnA
    unfold Lexer.scan_bulk_string
    rw [hn1]
    dsimp only
    rw [hgeti]
    dsimp only
    rw [hskip1]
    dsimp only
    rw [if_pos (Int.natCast_nonneg _)]
    simp only [Int.toNat_natCast]
    unfold Lexer.scan_string
    dsimp only
    simp only [List.length_nil, Nat.add_zero] at hloop2 ⊢
    rw [hloop2]
    simp only [if_true]
    rw [if_neg (by omega : ¬(1 + ds.length + 2 < 1 + ds.length + 2))]
    dsimp only
    rw [hskipA]
    dsimp only
    have hfin : 1 + ds.length + 2 + 2 = ds.length + 0 + 5 := by omega
    rw [hfin]
    simp
  · -- payload = [c0]
    have hrB : buf[1 + ds.length + 2 + 1]? = Option.some '\r' := by
      have h0 := getElem?_of_drop buf (1 + ds.length + 2) 1 _ hdrop2
      simpa using h0
    have hnB : buf[1 + ds.length + 2 + 1 + 1]? = Option.some '\n' := by
      have harith : 1 + ds.length + 2 + 1 + 1 = 1 + ds.length + 2 + 2 := by omega
      have h0 := getElem?_of_drop buf (1 + ds.length + 2) 2 _ hdrop2
      rw [harith, h0]
      simp
    have hskipB := skip_line_crlf buf (1 + ds.length + 2 + 1) (1 + ds.length + 2)
      (by omega) hrB hnB
    unfold Lexer.scan_bulk_string
    rw [hn1]
    dsimp only
    rw [hgeti]
    dsimp only
    rw [hskip1]
    dsimp only
    rw [if_pos (Int.natCast_nonneg _)]
    simp only [Int.toNat_natCast]
    unfold Lexer.scan_string
    dsimp only
    simp only [List.length_cons, List.length_nil, Nat.zero_add] at hloop2 ⊢
    rw [hloop2]
    have hifB : (if (1 : Nat) = 0 then 1 + ds.length + 2
        else 1 + ds.length + 2 + 1 - 1) = 1 + ds.length + 2 := by norm_num
    rw [hifB]
    rw [if_neg (by omega : ¬(1 + ds.length + 2 < 1 + ds.length + 2))]
    dsimp only
    rw [hskipB]
    dsimp only
    have hfin : 1 + ds.length + 2 + 1 + 2 = ds.length + 1 + 5 := by omega
    rw [hfin]
    simp
  · -- payload = c0 :: c1 :: tl, length ≥ 2
    have hplen : (c0 :: c1 :: tl).length = tl.length + 2 := by simp
    have hrC : buf[1 + ds.length + 2 + (tl.length + 2)]? = Option.some '\r' := by
      have h0 := getElem?_of_drop buf (1 + ds.length + 2) (tl.length + 2) _ hdrop2
      rw [h0, List.getElem?_append_right
        (by simp only [List.length_cons]; omega : (c0 :: c1 :: tl).length ≤ tl.length + 2)]
      simp
    have hnC : buf[1 + ds.length + 2 + (tl.length + 2) + 1]? = Option.some '\n' := by
      have harith : 1 + ds.length + 2 + (tl.length + 2) + 1 =
          1 + ds.length + 2 + (tl.length + 3) := by omega
      have h0 := getElem?_of_drop buf (1 + ds.length + 2) (tl.length + 3) _ hdrop2
      rw [harith, h0,
        List.getElem?_append_right
          (by simp only [List.length_cons]; omega : (c0 :: c1 :: tl).length ≤ tl.length + 3)]
      have harith2 : tl.length + 3 - (c0 :: c1 :: tl).length = 1 := by
        simp only [List.length_cons]
        omega
      rw [harith2]
      simp
    have hskipC := skip_line_crlf buf (1 + ds.length + 2 + (tl.length + 2))
      (1 + ds.length + 2 + (tl.length + 2)) (by omega) hrC hnC
    have hslice : sliceIncl buf (1 + ds.length + 2)
        (1 + ds.length + 2 + (tl.length + 2) - 1) = Option.some (c0 :: c1 :: tl) := by
      have hc1 : 1 + ds.length + 2 ≤ 1 + ds.length + 2 + (tl.length + 2) - 1 + 1 := by
        omega
      have hc2 : 1 + ds.length + 2 + (tl.length + 2) - 1 + 1 ≤ buf.length := by
        simp only [List.length_cons] at hbuflen
        omega
      have hcut : 1 + ds.length + 2 + (tl.length + 2) - 1 + 1 - (1 + ds.length + 2) =
          (c0 :: c1 :: tl).length := by
        simp only [List.length_cons]
        omega
      unfold sliceIncl
      rw [if_pos ⟨hc1, hc2⟩, hcut, hdrop2]
      rw [List.take_left]
    unfold Lexer.scan_bulk_string
    rw [hn1]
    dsimp only
    rw [hgeti]
    dsimp only
    rw [hskip1]
    dsimp only
    rw [if_pos (Int.natCast_nonneg _)]
    simp only [Int.toNat_natCast]
    unfold Lexer.scan_string
    dsimp only
    have h22 : (c0 :: c1 :: tl : List Char).length = tl.length + 2 := by
      simp only [List.length_cons]
    rw [h22] at hloop2 ⊢
    rw [hloop2]
    have hifC : (if tl.length + 2 = 0 then 1 + ds.length + 2
        else 1 + ds.length + 2 + (tl.length + 2) - 1) =
        1 + ds.length + 2 + (tl.length + 2) - 1 := by
      rw [if_neg (by omega)]
    rw [hifC]
    rw [if_pos (by omega : 1 + ds.length + 2 < 1 + ds.length + 2 + (tl.length + 2) - 1)]
    dsimp only
    rw [hslice]
    dsimp only
    have hfin1 : 1 + ds.length + 2 + (tl.length + 2) - 1 + 1 =
        1 + ds.length + 2 + (tl.length + 2) := by omega
    rw [hfin1]
    rw [hskipC]
    dsimp only
    have hfin2 : 1 + ds.length + 2 + (tl.length + 2) + 2 =
        ds.length + (tl.length + 2) + 5 := by omega
    rw [hfin2]
    rw [if_neg (by omega : ¬(tl.length + 2 = 1))]

/-! ### Claim theorems -/

/-- C1: the claim states that pulling the next token never panics and
that even an unrecognized leading sigil comes back as a typed result.
The dispatch in `Iterator::next` instead ends in `todo!()`: on the
one-byte buffer `%` the pull reaches that arm and aborts the process
(`PRes.crash` in the model), returning nothing to the caller. -/
theorem c1_unrecognized_sigil_crashes :
    (Lexer.next (Lexer.new ("%".toList))).fst = PRes.crash := rfl

/-- C2 counterexample: on the truncated aggregate from the claim, the
pull returns `None` (silent end of iteration, `PRes.done`) with the
cursor at the end of the buffer — not an incomplete-frame error (no
such error variant exists in the code) and not a 1-element array. -/
theorem c2_counterexample_truncated_array :
    Lexer.next (Lexer.new ("*2\r\n:1\r\n".toList)) =
      (PRes.done, ⟨"*2\r\n:1\r\n".toList, 8, 8⟩) := rfl

/-- C2 amended: for EVERY Array frame whose header parses — `*` sigil
consumed, count parsed as a non-negative integer, count-line terminator
consumed — if the recursive element loop reaches end of input before
pulling the declared number of element tokens (its outcome is the
end-of-iteration marker), then both the shared `get_collections` stage
and the whole `scan_array` pull return silent end-of-iteration (Rust
`None`): never a shorter aggregate and never an error, since no
incomplete-frame error variant exists in the code. -/
theorem c2_truncated_aggregate_amended (nextFn : NextFn) (s sa sb sc : Lexer)
    (ic : Nat × Char) (count : Int)
    (h1 : Lexer.next_if (fun _ c => c == '*') s = (Option.some ic, sa))
    (h2 : Lexer.get_integer sa = (Option.some (Except.ok count), sb))
    (h3 : Lexer.skip_line sb = (Option.some (), sc))
    (hcount : 0 ≤ count)
    (hdone : (collectLoop nextFn count.toNat sc []).fst = PRes.done) :
    (Lexer.get_collections nextFn (Except.ok count) sc).fst = PRes.done ∧
    (Lexer.scan_array nextFn s).fst = PRes.done := by
  rcases hres : collectLoop nextFn count.toNat sc [] with ⟨r, l, s4⟩
  rw [hres] at hdone
  dsimp only at hdone
  subst hdone
  have hgc : Lexer.get_collections nextFn (Except.ok count) sc =
      (PRes.done, l, s4) := by
    unfold Lexer.get_collections
    dsimp only
    rw [if_pos hcount, hres]
  constructor
  · rw [hgc]
  · unfold Lexer.scan_array
    rw [h1]
    dsimp only
    rw [h2]
    dsimp only
    rw [h3]
    dsimp only
    rw [hgc]

/-- C2 amended, witness: the truncated frame `*2\r\n:1\r\n` from the
claim, with its actual header states and the actual recursive puller
used by `Lexer.next` on that buffer (fuel 8): one Integer element is
pulled, the second pull hits end of input, and both `get_collections`
and `scan_array` return the end-of-iteration outcome. -/
theorem c2_truncated_aggregate_amended_witness :
    (Lexer.get_collections (fun s' => Lexer.nextTok 8 s') (Except.ok 2)
        (Lexer.mk ("*2\r\n:1\r\n".toList) 4 4)).fst = PRes.done ∧
    (Lexer.scan_array (fun s' => Lexer.nextTok 8 s')
        (Lexer.new ("*2\r\n:1\r\n".toList))).fst = PRes.done :=
  c2_truncated_aggregate_amended (fun s' => Lexer.nextTok 8 s')
    (Lexer.new ("*2\r\n:1\r\n".toList)) (Lexer.mk ("*2\r\n:1\r\n".toList) 1 1)
    (Lexer.mk ("*2\r\n:1\r\n".toList) 2 1) (Lexer.mk ("*2\r\n:1\r\n".toList) 4 4)
    (0, '*') 2 rfl rfl rfl (by decide) rfl

/-- C3 counterexample: the partial trailing frame `+OK` (sigil and body
but no terminator) does NOT produce an incomplete-frame error on the
next pull; the pull returns `None` (`PRes.done`), silently dropping the
partial frame, with the cursor already advanced past the body. -/
theorem c3_counterexample_partial_frame :
    Lexer.next (Lexer.new ("+OK".toList)) =
      (PRes.done, ⟨"+OK".toList, 3, 3⟩) := rfl

/-- C3 amended: for EVERY partial trailing simple-string frame — a `+`
sigil followed by any run of non-terminator characters and then end of
buffer — the next pull returns the silent end-of-iteration outcome
(`PRes.done`), never an error token (the failing `skip_line` propagates
as `None` through the `?` operator). -/
theorem c3_partial_frame_amended (text : List Char)
    (h : text.all (fun c => c != '\r' && c != '\n') = true) :
    (Lexer.next (Lexer.new ('+' :: text))).fst = PRes.done := by
  rw [next_dispatch_plus (Lexer.new ('+' :: text)) (by simp [Lexer.new])]
  apply liftNext_fst_done
  have hn1 : Lexer.next_if (fun _ c => c == '+') (Lexer.new ('+' :: text)) =
      (Option.some (0, '+'), ⟨'+' :: text, 1, 1⟩) := by
    simp [Lexer.next_if, Lexer.new]
  have hdrop : ('+' :: text).drop 1 = text ++ [] := by simp
  have hrun : ∀ k (hk : k < text.length),
      (fun _ c => c != '\r' && c != '\n') (1 + k) text[k] = true := by
    intro k hk
    exact List.all_eq_true.mp h _ (List.getElem_mem hk)
  have hstop : ∀ c, ([] : List Char).head? = Option.some c →
      (fun _ c => c != '\r' && c != '\n') (1 + text.length) c = false := by
    intro c hc
    simp at hc
  have hfuel : text.length + ([] : List Char).length ≤ ('+' :: text).length - 1 := by
    simp only [List.length_nil, List.length_cons]
    omega
  have hloop := scannerRun_spec (fun _ c => c != '\r' && c != '\n') text []
    (('+' :: text).length - 1) ('+' :: text) 1 1 1 hdrop hrun hstop hfuel
  unfold Lexer.scan_simple_string
  rw [hn1]
  unfold Lexer.scan_string
  simp only [hloop]
  by_cases h2 : 2 ≤ text.length
  · have hne0 : ¬(text.length = 0) := by omega
    have he : (if text.length = 0 then 1 else 1 + text.length - 1) = text.length := by
      rw [if_neg hne0]
      omega
    rw [he, if_pos (by omega : 1 < text.length)]
    have hskip := skip_line_fail ('+' :: text) (1 + text.length) (text.length + 1)
      (by simp only [List.length_cons]; omega)
    cases hsl : sliceIncl ('+' :: text) 1 text.length with
    | none => dsimp only
    | some t =>
      dsimp only
      rw [hskip]
  · have he : (if text.length = 0 then 1 else 1 + text.length - 1) = 1 := by
      split
      · rfl
      · omega
    rw [he, if_neg (by omega : ¬(1 < 1))]
    dsimp only
    rw [skip_line_fail ('+' :: text) (1 + text.length) 1
      (by simp only [List.length_cons]; omega)]

/-- C3 amended, witness: a concrete partial frame pulled through the
amended theorem. -/
theorem c3_partial_frame_amended_witness :
    (Lexer.next (Lexer.new ('+' :: ("AB".toList)))).fst = PRes.done :=
  c3_partial_frame_amended ("AB".toList) (by decide)

/-- C4 counterexample: the well-formed frame `$1\r\na\r\n` declares
length 1 and decodes successfully, but the decoded payload is the EMPTY
string, not a 1-character string: the `start_position < end_position`
test in `scan_string` fails when exactly one character was captured, so
the capture is dropped (the claim that the decoded length equals the
declared length is false). -/
theorem c4_counterexample_length_one :
    Lexer.next (Lexer.new ("$1\r\na\r\n".toList)) =
      (PRes.item (Except.ok (Token.BulkString (Option.some ([])))),
       ⟨"$1\r\na\r\n".toList, 7, 7⟩) := rfl

/-- C4 amended: for EVERY well-formed BulkString frame — `$`, a digit
run declaring exactly the payload length (fitting in an `i64`), a
terminator, a payload free of CR/LF, a terminator, and any remainder —
the token decodes, the cursor consumes the whole frame including the
final terminator (the two bytes after the payload are consumed as
terminator, not payload), and the decoded text equals the payload
EXCEPT when the declared length is 1, in which case it is empty. -/
theorem c4_bulk_string_amended (ds payload rest : List Char)
    (hne : ds ≠ []) (hdig : ds.all Char.isDigit = true)
    (hbound : digitsToNat ds < 2 ^ 63)
    (hlen : digitsToNat ds = payload.length)
    (hpay : payload.all (fun c => c != '\r' && c != '\n') = true) :
    Lexer.next (Lexer.new
        ('$' :: ds ++ '\r' :: '\n' :: (payload ++ '\r' :: '\n' :: rest))) =
      (PRes.item (Except.ok (Token.BulkString (Option.some
        (if payload.length = 1 then [] else payload)))),
       ⟨'$' :: ds ++ '\r' :: '\n' :: (payload ++ '\r' :: '\n' :: rest),
        ds.length + payload.length + 5, ds.length + payload.length + 5⟩) := by
  rw [next_dispatch_dollar
    (Lexer.new ('$' :: ds ++ '\r' :: '\n' :: (payload ++ '\r' :: '\n' :: rest)))
    (by simp [Lexer.new])]
  rw [scan_bulk_string_wellformed ds payload rest _ rfl hne hdig hbound hlen hpay]
  rfl

/-- C4 amended, witness: the frame `$3\r\nabc\r\n` through the amended
theorem. -/
theorem c4_bulk_string_amended_witness :
    Lexer.next (Lexer.new
        ('$' :: ['3'] ++ '\r' :: '\n' :: ((['a', 'b', 'c']) ++ '\r' :: '\n' :: ([] : List Char)))) =
      (PRes.item (Except.ok (Token.BulkString (Option.some
        (if (['a', 'b', 'c'] : List Char).length = 1 then [] else ['a', 'b', 'c'])))),
       ⟨'$' :: ['3'] ++ '\r' :: '\n' :: ((['a', 'b', 'c']) ++ '\r' :: '\n' :: ([] : List Char)),
        (['3'] : List Char).length + (['a', 'b', 'c'] : List Char).length + 5,
        (['3'] : List Char).length + (['a', 'b', 'c'] : List Char).length + 5⟩) :=
  c4_bulk_string_amended ['3'] ['a', 'b', 'c'] [] (by decide) (by decide)
    (by decide) (by decide) (by decide)

/-- C5: the claim says a `~`-sigil frame decodes to a Set token.  The
dispatch does route `~` to `scan_set`, but `scan_set` begins with
`next_if(|(_, c)| *c == '#')`, which can never match the `~` it was
dispatched on: the well-formed empty-set frame returns `None`
(`PRes.done`) with nothing consumed, never a Set token. -/
theorem c5_set_sigil_rejected :
    Lexer.next (Lexer.new ("~0\r\n".toList)) =
      (PRes.done, Lexer.new ("~0\r\n".toList)) := rfl

/-- C6 counterexample: on exactly `*-1\r\n` the pull does NOT return a
null Array token: `get_collections` calls `skip_line` a second time for
the negative count, which needs two more bytes after the already
consumed terminator and fails, so the pull returns `None` (`PRes.done`).
The claim that no additional input is required after the terminator is
false. -/
theorem c6_counterexample_negative_array :
    Lexer.next (Lexer.new ("*-1\r\n".toList)) =
      (PRes.done, ⟨"*-1\r\n".toList, 5, 5⟩) := rfl

/-- C6 amended: for EVERY buffer `*-1\r\n` followed by `rest`, the pull
returns the null Array token exactly when `rest` has at least two
bytes — whatever they are, since the second `skip_line` called by
`get_collections` for the negative count only requires two remaining
bytes and its `\r`/`\n` consumptions are optional — and returns silent
end-of-iteration otherwise.  In particular `*-1\r\n` alone fails, while
both `*-1\r\n\r\n` (the crate test buffer) and `*-1\r\nXY` yield the
null Array. -/
theorem c6_negative_array_amended (rest : List Char) :
    (Lexer.next (Lexer.new ('*' :: '-' :: '1' :: '\r' :: '\n' :: rest))).fst =
      (if 2 ≤ rest.length then PRes.item (Except.ok (Token.Array Option.none))
       else PRes.done) := by
  rw [next_dispatch_star (Lexer.new ('*' :: '-' :: '1' :: '\r' :: '\n' :: rest))
    (by simp [Lexer.new])]
  have hn1 : Lexer.next_if (fun _ c => c == '*')
      (Lexer.new ('*' :: '-' :: '1' :: '\r' :: '\n' :: rest)) =
      (Option.some (0, '*'), ⟨'*' :: '-' :: '1' :: '\r' :: '\n' :: rest, 1, 1⟩) := by
    simp [Lexer.next_if, Lexer.new]
  have hsym : Lexer.get_symbol_position
      ⟨'*' :: '-' :: '1' :: '\r' :: '\n' :: rest, 1, 1⟩ =
      (1, ⟨'*' :: '-' :: '1' :: '\r' :: '\n' :: rest, 2, 2⟩) := by
    simp [Lexer.get_symbol_position, Lexer.next_if]
  have hdropd : ('*' :: '-' :: '1' :: '\r' :: '\n' :: rest).drop 2 =
      ['1'] ++ '\r' :: '\n' :: rest := rfl
  have hrund : ∀ k (hk : k < (['1'] : List Char).length),
      (fun _ c => c.isDigit) (2 + k) (['1'] : List Char)[k] = true := by
    intro k hk
    have hk0 : k = 0 := by simpa using hk
    subst hk0
    show Char.isDigit '1' = true
    decide
  have hstopd : ∀ c, ('\r' :: '\n' :: rest).head? = Option.some c →
      (fun _ c => c.isDigit) (2 + (['1'] : List Char).length) c = false := by
    intro c hc
    simp only [List.head?_cons, Option.some.injEq] at hc
    subst hc
    show Char.isDigit '\r' = false
    decide
  have hfueld : (['1'] : List Char).length + ('\r' :: '\n' :: rest).length ≤
      ('*' :: '-' :: '1' :: '\r' :: '\n' :: rest).length - 2 := by
    simp only [List.length_cons, List.length_nil]
    omega
  have hloopd := scannerRun_spec (fun _ c => c.isDigit) (['1'])
    ('\r' :: '\n' :: rest) (('*' :: '-' :: '1' :: '\r' :: '\n' :: rest).length - 2)
    ('*' :: '-' :: '1' :: '\r' :: '\n' :: rest) 2 2 2 hdropd hrund hstopd hfueld
  have hnum : Lexer.scan_number ⟨'*' :: '-' :: '1' :: '\r' :: '\n' :: rest, 2, 2⟩ =
      ((2, 2), ⟨'*' :: '-' :: '1' :: '\r' :: '\n' :: rest, 3, 2⟩) := by
    unfold Lexer.scan_number
    dsimp only
    rw [hloopd]
    simp
  have hsliced : sliceIncl ('*' :: '-' :: '1' :: '\r' :: '\n' :: rest) 1 2 =
      Option.some ['-', '1'] := by
    unfold sliceIncl
    rw [if_pos ⟨by omega, by simp only [List.length_cons]; omega⟩]
    rfl
  have hi : i64FromStr ['-', '1'] = Except.ok (-1) := rfl
  have hgeti : Lexer.get_integer ⟨'*' :: '-' :: '1' :: '\r' :: '\n' :: rest, 1, 1⟩ =
      (Option.some (Except.ok (-1)),
       ⟨'*' :: '-' :: '1' :: '\r' :: '\n' :: rest, 3, 2⟩) := by
    unfold Lexer.get_integer
    rw [hsym]
    dsimp only
    rw [hnum]
    dsimp only
    rw [hsliced]
    dsimp only
    rw [hi]
  have hr6 : ('*' :: '-' :: '1' :: '\r' :: '\n' :: rest)[3]? = Option.some '\r' := by
    simp
  have hn6 : ('*' :: '-' :: '1' :: '\r' :: '\n' :: rest)[3 + 1]? = Option.some '\n' := by
    simp
  have hskip6 := skip_line_crlf ('*' :: '-' :: '1' :: '\r' :: '\n' :: rest) 3 2
    (by simp only [List.length_cons]; omega) hr6 hn6
  unfold Lexer.scan_array
  rw [hn1]
  dsimp only
  rw [hgeti]
  dsimp only
  rw [hskip6]
  dsimp only
  unfold Lexer.get_collections
  dsimp only
  rw [if_neg (by norm_num : ¬ (0 : Int) ≤ -1)]
  by_cases hrest : 2 ≤ rest.length
  · rcases hsl : Lexer.skip_line
        ⟨'*' :: '-' :: '1' :: '\r' :: '\n' :: rest, 5, 5⟩ with ⟨o, s5⟩
    have ho : o = Option.some () := by
      have hx := skip_line_succeeds
        ⟨'*' :: '-' :: '1' :: '\r' :: '\n' :: rest, 5, 5⟩
        (by simp only [List.length_cons]; omega)
      rw [hsl] at hx
      exact hx
    subst ho
    dsimp only
    rw [if_neg (by norm_num : ¬ (0 : Int) ≤ -1)]
    rw [if_pos hrest]
  · have hlen1 : ('*' :: '-' :: '1' :: '\r' :: '\n' :: rest).length < 5 + 2 := by
      simp only [List.length_cons]
      omega
    rw [skip_line_fail ('*' :: '-' :: '1' :: '\r' :: '\n' :: rest) 5 5 hlen1]
    dsimp only
    rw [if_neg hrest]

/-- C7 counterexample: `#` followed by `x` (neither `t` nor `f`) does
NOT yield `Error::Boolean`: the `?` on the `next_if` propagates `None`,
so the pull silently ends iteration with only the `#` consumed. -/
theorem c7_counterexample_boolean_format :
    Lexer.next (Lexer.new ("#x\r\n".toList)) =
      (PRes.done, ⟨"#x\r\n".toList, 1, 1⟩) := rfl

/-- C7 amended: for EVERY buffer position holding `#` followed by a
character that is neither `t` nor `f`, the pull returns the silent
end-of-iteration outcome (`PRes.done`); the `Err(Error::Boolean)` arm of
`scan_boolean` is unreachable because the `?` on `next_if` exits first. -/
theorem c7_boolean_format_amended (s : Lexer) (c : Char)
    (h1 : s.inner[s.scanner]? = Option.some '#')
    (h2 : s.inner[s.scanner + 1]? = Option.some c)
    (h3 : c ≠ 't') (h4 : c ≠ 'f') :
    (Lexer.next s).fst = PRes.done := by
  rw [next_dispatch_hash s h1]
  apply liftNext_fst_done
  have hn1 : Lexer.next_if (fun _ ch => ch == '#') s =
      (Option.some (s.scanner, '#'),
       { s with scanner := s.scanner + 1, position := s.scanner + 1 }) := by
    simp [Lexer.next_if, h1]
  have hct : (c == 't') = false := by simp [h3]
  have hcf : (c == 'f') = false := by simp [h4]
  have hn2 : Lexer.next_if (fun _ ch => ch == 't' || ch == 'f')
      { s with scanner := s.scanner + 1, position := s.scanner + 1 } =
      (Option.none,
       { s with scanner := s.scanner + 1, position := s.scanner + 1 }) := by
    simp [Lexer.next_if, h2, hct, hcf]
  simp only [Lexer.scan_boolean, hn1, hn2]

/-- C7 amended, witness: the amended theorem applied at a concrete
buffer whose second character is `z`. -/
theorem c7_boolean_format_amended_witness :
    (Lexer.next (Lexer.new ("#z\r\n".toList))).fst = PRes.done :=
  c7_boolean_format_amended (Lexer.new ("#z\r\n".toList)) 'z' rfl rfl
    (by decide) (by decide)

/-- C8 counterexample: on the one-byte buffer `a` at position 0 there
is exactly one remaining byte, yet `skip_line` fails (returns `None`):
its guard `inner.get(position..=position+1)` demands TWO bytes, so the
claim that one remaining byte suffices is false. -/
theorem c8_counterexample_one_byte :
    (Lexer.skip_line (Lexer.mk (['a']) 0 0)).fst = Option.none := rfl

/-- C8 amended: `skip_line` succeeds exactly when at least TWO bytes
remain at the `position` field (`position + 2 ≤ length`); with fewer —
including the one-remaining-byte case — it fails, and on success it
consumes an optional `\r` then an optional `\n` at the scanner. -/
theorem c8_skip_line_amended (s : Lexer) :
    (Lexer.skip_line s).fst = Option.some () ↔
      s.position + 2 ≤ s.inner.length := by
  constructor
  · intro h
    by_contra hcon
    have hg : ¬(s.position ≤ s.position + 1 + 1 ∧
        s.position + 1 + 1 ≤ s.inner.length) := by omega
    have hfalse : (sliceIncl s.inner s.position (s.position + 1)).isSome = false := by
      unfold sliceIncl
      rw [if_neg hg]
      rfl
    unfold Lexer.skip_line at h
    rw [hfalse] at h
    simp at h
  · intro h
    have hg : s.position ≤ s.position + 1 + 1 ∧
        s.position + 1 + 1 ≤ s.inner.length := by omega
    have htrue : (sliceIncl s.inner s.position (s.position + 1)).isSome = true := by
      unfold sliceIncl
      rw [if_pos hg]
      rfl
    unfold Lexer.skip_line
    rw [htrue]
    simp

/-- C9: decoding is deterministic — the pull sequence is a pure
function of the buffer and the two cursor offsets, so two lexer
instances agreeing on those fields produce identical drained sequences
of any length. -/
theorem c9_two_runs_equal (s t : Lexer) (h1 : s.inner = t.inner)
    (h2 : s.scanner = t.scanner) (h3 : s.position = t.position) (k : Nat) :
    drainN k s = drainN k t := by
  have hst : s = t := by
    cases s
    cases t
    simp only at h1 h2 h3
    simp [h1, h2, h3]
  rw [hst]

/-- C9 witness: two independently constructed lexers over the same
buffer, drained, give the same sequence. -/
theorem c9_two_runs_equal_witness :
    drainN 2 (Lexer.new ("+OK\r\n".toList)) =
      drainN 2 (Lexer.new ("+OK\r\n".toList)) :=
  c9_two_runs_equal (Lexer.new ("+OK\r\n".toList))
    (Lexer.new ("+OK\r\n".toList)) rfl rfl rfl 2

/-- C10: the public entry point `Parser::parse` constructs a lexer,
discards it, and returns unit for every parser instance — no token or
error is observable through it. -/
theorem c10_parse_returns_unit (p : Parser) : Parser.parse p = () := rfl

end RedisParser
